import Mathlib

set_option autoImplicit false

/-!
Verification of the fullerite metrics-agent core against its specification.

The Go sources are embedded shallowly:

* `map[string]string` / `map[string]T` become association lists with the Go
  map's lookup/insert semantics; Go's randomized map iteration order is
  determinized to list order (the spec only requires a deterministic order
  within one payload).
* `float64` metric values are restricted to their integral fragment (`Int`):
  no claim under verification depends on non-integral, NaN or infinite
  values, and `fmt.Sprintf("%f", v)` on an integral value prints the integer
  part followed by `.000000`.
* goroutines that the source spawns (`go writeTable(...)`) are executed
  synchronously at their spawn point; the claims under verification concern
  the resulting table contents, not interleavings.
* `unicode.ToLower` is used by the source on the first rune of a metric
  name; the embedding uses `Char.toLower`, which agrees with it on the
  basic-latin range (Go's simple case mapping restricted to ASCII).
* compiled regular expressions in collector blacklists are embedded as
  `String → Bool` predicates (the dispatcher only ever calls
  `regexp.MatchString`, i.e. applies the predicate).
-/

/-! ## Metric record model (fullerite/metric package) -/

/-- Go `map[string]string` dimension set: association list with unique keys. -/
abbrev Dims := List (String × String)

/-- Lookup in an association list, Go `v, ok := m[k]` semantics. -/
def dimLookup (dims : Dims) (k : String) : Option String :=
  match dims with
  | [] => none
  | (k', v) :: rest => if k' = k then some v else dimLookup rest k

/-- Go map assignment `m[k] = v`: overwrite the existing entry or add one. -/
def dimInsert (dims : Dims) (k v : String) : Dims :=
  match dims with
  | [] => [(k, v)]
  | (k', v') :: rest => if k' = k then (k, v) :: rest else (k', v') :: dimInsert rest k v

/-- Go `delete(m, k)`. -/
def dimErase (dims : Dims) (k : String) : Dims :=
  dims.filter (fun p => p.1 != k)

/-- The metric type constants of the fullerite metric package. -/
def Gauge : String := "gauge"

/-- Counter metric type constant. -/
def Counter : String := "counter"

/-- CumulativeCounter metric type constant. -/
def CumulativeCounter : String := "cumcounter"

/-- The `metric.Metric`: the data unit flowing through the pipeline.
`Value` is the integral fragment of the Go `float64` field. -/
structure Metric where
  Name : String
  MetricType : String
  Value : Int
  Dimensions : Dims
deriving Repr, DecidableEq

/-- The `metric.New`: defaults to gauge type and value 0, empty dimensions. -/
def Metric.New (name : String) : Metric :=
  { Name := name, MetricType := "gauge", Value := 0, Dimensions := [] }

/-- The `metric.WithValue`. -/
def Metric.WithValue (name : String) (value : Int) : Metric :=
  { Metric.New name with Value := value }

/-- The `m.AddDimension(name, value)`. -/
def Metric.AddDimension (m : Metric) (k v : String) : Metric :=
  { m with Dimensions := dimInsert m.Dimensions k v }

/-- The `m.RemoveDimension(name)`. -/
def Metric.RemoveDimension (m : Metric) (k : String) : Metric :=
  { m with Dimensions := dimErase m.Dimensions k }

/-- The `m.GetDimensionValue(dimension)`. -/
def Metric.GetDimensionValue (m : Metric) (k : String) : Option String :=
  dimLookup m.Dimensions k

/-- The `metric.Sentinel()`: the force-flush sentinel metric. -/
def SentinelMetric : Metric := Metric.WithValue "fullerite.emit_now" 0

/-- The `metric.BeginCollection(collector)`: begin-of-cycle marker. -/
def BeginCollectionMetric (collector : String) : Metric :=
  (Metric.WithValue "fullerite.begin_collection" 0).AddDimension "collector" collector

/-- The `metric.EndCollection(collector)`: end-of-cycle marker. -/
def EndCollectionMetric (collector : String) : Metric :=
  (Metric.WithValue "fullerite.end_collection" 0).AddDimension "collector" collector

/-- The `m.Sentinel()`: name test for the force-flush sentinel. -/
def Metric.Sentinel (m : Metric) : Bool := m.Name == "fullerite.emit_now"

/-- The `m.BeginCollection()`: name test for the begin-of-cycle marker. -/
def Metric.BeginCollection (m : Metric) : Bool := m.Name == "fullerite.begin_collection"

/-- The `m.EndCollection()`: name test for the end-of-cycle marker. -/
def Metric.EndCollection (m : Metric) : Bool := m.Name == "fullerite.end_collection"

/-! ## Prometheus handler serializer helpers (handler/prometheus.go) -/

/-- Character-wise action of the label value escaper
`strings.NewReplacer("\x5c", "\x5c\x5c", newline, "\x5cn", quote, "\x5c" ++ quote)`:
backslash, newline and double quote are escaped. -/
def labelEscapeChar (c : Char) : List Char :=
  if c = Char.ofNat 92 then [Char.ofNat 92, Char.ofNat 92]
  else if c = Char.ofNat 10 then [Char.ofNat 92, 'n']
  else if c = Char.ofNat 34 then [Char.ofNat 92, Char.ofNat 34]
  else [c]

/-- The `labelEscaper.Replace`. -/
def labelEscape (s : String) : String := String.mk (s.data.flatMap labelEscapeChar)

/-- Character-wise action of
`nameEscaper = strings.NewReplacer("$", "", ".", "_", "-", "_", "/", "", "single-quote", "", " ", "_")`. -/
def nameEscapeChar (c : Char) : List Char :=
  if c = '$' then []
  else if c = '.' then ['_']
  else if c = '-' then ['_']
  else if c = '/' then []
  else if c = Char.ofNat 39 then []
  else if c = ' ' then ['_']
  else [c]

/-- The `nameEscaper.Replace`. -/
def nameEscaperReplace (s : String) : String := String.mk (s.data.flatMap nameEscapeChar)

/-- The `lowerFirst`: lower-case the first rune, leave the rest unchanged. -/
def lowerFirst (s : String) : String :=
  match s.data with
  | [] => ""
  | c :: cs => String.mk (Char.toLower c :: cs)

/-- The combined name sanitizer `lowerFirst(nameEscaper.Replace(x))`, applied by
both `getMetricKey` and the type-declaration writer. -/
def sanitizeName (s : String) : String := lowerFirst (nameEscaperReplace s)

/-- First character class `[a-zA-Z_:]` of the Prometheus name pattern. -/
def nameStartChar (c : Char) : Bool :=
  (97 ≤ c.toNat && c.toNat ≤ 122) || (65 ≤ c.toNat && c.toNat ≤ 90) || c == '_' || c == ':'

/-- The `nameMatcher.MatchString s` for
`nameMatcher = regexp.MustCompile("[a-zA-Z_:][a-zA-Z0-9_:]*")`.
Go regexp matching is an unanchored search; a match of this pattern exists in
`s` iff some character of `s` lies in the first class, since the starred
second class may match the empty string. -/
def nameMatcherMatchString (s : String) : Bool := s.data.any nameStartChar

/-- Fold step of `dimensionsToString`: the accumulator carries the output so
far and the next separator (`"\x7b"` first, then `","`). -/
def dimsFoldStep (acc : String × String) (kv : String × String) : String × String :=
  (acc.1 ++ acc.2 ++ kv.1 ++ "=\"" ++ labelEscape kv.2 ++ "\"", ",")

/-- The `dimensionsToString`: `"\x7b\x7d"` for an empty set, else the
`\x7bk="v",...\x7d` block with escaped values. -/
def dimensionsToString (dims : Dims) : String :=
  if dims.length = 0 then "\x7b\x7d"
  else (dims.foldl dimsFoldStep ("", "\x7b")).1 ++ "\x7d"

/-- The `getMetricKey`: sanitized name followed by the rendered dimension block. -/
def getMetricKey (m : Metric) : String :=
  sanitizeName m.Name ++ dimensionsToString m.Dimensions

/-- The `fmt.Sprintf("%f", v)` for a float64 holding the integral value `v`. -/
def sprintfFloat (v : Int) : String := toString v ++ ".000000"

/-- One body line of `writeTable`: `fmt.Sprintf("%s %f %d\n", key, value, time)`. -/
def sampleLine (now : Int) (m : Metric) : String :=
  getMetricKey m ++ " " ++ sprintfFloat m.Value ++ " " ++ toString now ++ "\n"

/-- The `writeTable` body serialization: keys failing `nameMatcher.MatchString`
are skipped (`continue`), matching keys contribute one sample line. `now` is
the millisecond timestamp taken at entry. -/
def writeTable (now : Int) (metrics : List Metric) : String :=
  metrics.foldl
    (fun out m => if nameMatcherMatchString (getMetricKey m) then out ++ sampleLine now m else out)
    ""

/-! ## Prometheus handler snapshot cache (handler/prometheus.go tables) -/

/-- Lookup in a Go `map[string]T` embedded as an association list. -/
def tblLookup {α : Type} (t : List (String × α)) (k : String) : Option α :=
  match t with
  | [] => none
  | (k', v) :: rest => if k' = k then some v else tblLookup rest k

/-- Go map assignment for the embedded tables. -/
def tblInsert {α : Type} (t : List (String × α)) (k : String) (v : α) : List (String × α) :=
  match t with
  | [] => [(k, v)]
  | (k', v') :: rest => if k' = k then (k, v) :: rest else (k', v') :: tblInsert rest k v

/-- The three package-level tables guarded by the two mutexes:
the working table `metricCollectorTable`, the type table
`metricOutputTypes` (true = counter, false = gauge) and the published table
`metricOutputTable`. -/
structure PromState where
  metricCollectorTable : List (String × List Metric)
  metricOutputTypes : List (String × Bool)
  metricOutputTable : List (String × String)
deriving Repr, DecidableEq

/-- The tables as initialized by `init()`: all empty. -/
def initPromState : PromState := ⟨[], [], []⟩

/-- The `addPrometheusMetric`: the snapshot-cache entry point. A begin marker
ensures a working-table entry exists; an end marker takes the current list,
resets the entry to empty and (via `go writeTable`, run synchronously here)
republishes its serialization; any other metric is appended to its
collector's working list and recorded in the type table. `now` is the
timestamp `writeTable` reads when it runs. -/
def addPrometheusMetric (now : Int) (st : PromState) (m : Metric) : PromState :=
  let collectorName := (m.GetDimensionValue "collector").getD ""
  if m.BeginCollection then
    match tblLookup st.metricCollectorTable collectorName with
    | some _ => st
    | none => { st with metricCollectorTable := tblInsert st.metricCollectorTable collectorName [] }
  else if m.EndCollection then
    let collected := (tblLookup st.metricCollectorTable collectorName).getD []
    { st with
      metricCollectorTable := tblInsert st.metricCollectorTable collectorName [],
      metricOutputTable := tblInsert st.metricOutputTable collectorName (writeTable now collected) }
  else
    { st with
      metricCollectorTable :=
        tblInsert st.metricCollectorTable collectorName
          ((tblLookup st.metricCollectorTable collectorName).getD [] ++ [m]),
      metricOutputTypes := tblInsert st.metricOutputTypes m.Name (m.MetricType != Gauge) }

/-- Processing a sequence of metrics through the snapshot cache. -/
def addPrometheusMetrics (now : Int) (st : PromState) (ms : List Metric) : PromState :=
  ms.foldl (addPrometheusMetric now) st

/-- One `# TYPE` declaration line of `PrometheustableRead`. -/
def typeLine (k : String) (t : Bool) : String :=
  "# TYPE " ++ sanitizeName k ++ " " ++ (if t then "counter" else "gauge") ++ "\n"

/-- The type-declaration block of `PrometheustableRead`: raw names failing
`nameMatcher.MatchString` are dropped (a diagnostic is logged instead). -/
def typesBlock (types : List (String × Bool)) : String :=
  types.foldl (fun out kt => if nameMatcherMatchString kt.1 then out ++ typeLine kt.1 kt.2 else out) ""

/-- The `PrometheustableRead`: full exposition payload, the type block followed by
the concatenation of all published per-source bodies. -/
def PrometheustableRead (st : PromState) : String :=
  typesBlock st.metricOutputTypes ++ st.metricOutputTable.foldl (fun out p => out ++ p.2) ""

/-! ## Collector runner and dispatcher (fullerite/collectors.go) -/

/-- Configuration surface of one physical collector seen by `runCollector` and
`readFromCollector`. Compiled blacklist regexes are embedded as predicates
(`regexp.MatchString` applied to a metric name). -/
structure CollectorCfg where
  name : String
  canonicalName : String
  interval : Int
  prefixStr : String
  blacklist : List (String → Bool)
  collectorType : String

/-- The `staggerValue := 1` in `runCollector`. -/
def staggerValue : Int := 1

/-- The `reportCollector`: the overrun metric pushed by the watchdog callback. -/
def reportCollectorMetric (interval : Int) : Metric :=
  let newMetric := Metric.New "fullerite.collection_time_exceeded"
  let newMetric := { newMetric with MetricType := Counter, Value := 1 }
  newMetric.AddDimension "interval" (toString interval)

/-- Overrun metrics pushed during one tick of `runCollector`, as a function of
the collector type, configured interval and the wall-clock duration of the
`Collect()` invocation (all in seconds). A listener-type collector never arms
the watchdog. Otherwise `time.AfterFunc` arms a one-shot timer for
`collectionDeadline = interval + staggerValue`; it fires exactly once, while
`Collect()` is still blocked, iff the invocation outlives the deadline, and
`countdownTimer.Stop()` disarms it with no side effect when `Collect()`
returns first. The timer only runs `reportCollector`; it never interrupts the
in-flight invocation. The exact-deadline tie (`collectDuration =` deadline) is
a race in the source and is modelled as no fire. -/
def runCollectorCycleOverruns (collectorType : String) (interval : Int)
    (collectDuration : Int) : List Metric :=
  if collectorType == "listener" then []
  else if collectDuration > interval + staggerValue then [reportCollectorMetric interval]
  else []

/-- The `stringInSlice`: first blacklist pattern with a partial match wins. -/
def stringInSlice (metricName : String) (list : List (String → Bool)) : Bool :=
  list.any (fun matcher => matcher metricName)

/-- The modulus of Go's `uint64`: `emissionCounter[c]++` wraps silently past
`2^64 - 1`. -/
def uint64Size : Nat := 18446744073709551616

/-- Dispatcher state of `readFromCollector`: the per-canonical-source emission
counter map (Go `map[string]uint64`, embedded as association-list entries of
`Nat` kept below `uint64Size` by reducing every increment mod `2^64`), the
last stats-emission time, and (in place of the stats channel) the ordered log
of `(source, count)` pairs sent on it. -/
structure DispatchState where
  emissionCounter : List (String × Nat)
  lastEmission : Int
  statLog : List (String × Nat)

/-- The `emitCollectorStats`: sends every `(collectorName, count)` pair of the
counter map on the stats channel, in map order. -/
def emitCollectorStats (data : List (String × Nat)) : List (String × Nat) := data

/-- Lines 97-99 of `readFromCollector`: a metric without a `collector`
dimension is stamped with the physical collector's name. -/
def resolveCollectorDim (col : CollectorCfg) (m : Metric) : Metric :=
  if (m.GetDimensionValue "collector").isNone
  then m.AddDimension "collector" col.name else m

/-- Lines 96 and 104-107 of `readFromCollector`: the routing key defaults to
`collector.CanonicalName()`; a `collectorCanonicalName` dimension overrides it
and is stripped from the metric. -/
def resolveCanonical (col : CollectorCfg) (m : Metric) : String × Metric :=
  match m.GetDimensionValue "collectorCanonicalName" with
  | some val => (val, m.RemoveDimension "collectorCanonicalName")
  | none => (col.canonicalName, m)

/-- Lines 113-124 of `readFromCollector`: bump the emission counter for the
routing key `c` — a `uint64` increment, so it wraps mod `2^64`; when a stats
channel was supplied and more than the collector's interval has elapsed since
the last emission, emit the whole counter map and reset only the elapsed-time
tracker (`lastEmission := time.Now()`, modelled as the arrival time of the
triggering metric). -/
def dispatchStateUpdate (col : CollectorCfg) (statChanPresent : Bool)
    (st : DispatchState) (arrival : Int) (c : String) : DispatchState :=
  let emissionCounter :=
    tblInsert st.emissionCounter c
      (((tblLookup st.emissionCounter c).getD 0 + 1) % uint64Size)
  if statChanPresent && decide (st.lastEmission + col.interval < arrival) then
    { emissionCounter := emissionCounter,
      lastEmission := arrival,
      statLog := st.statLog ++ emitCollectorStats emissionCounter }
  else { st with emissionCounter := emissionCounter }

/-- Lines 126-128 of `readFromCollector`: a configured non-empty prefix is
prepended to the surviving metric's name. -/
def applyPrefixStr (col : CollectorCfg) (m : Metric) : Metric :=
  if col.prefixStr.length > 0 then { m with Name := col.prefixStr ++ m.Name } else m

/-- The body of `readFromCollector`'s loop for one received metric `m`
arriving at wall-clock time `arrival` (seconds). Returns the new dispatcher
state and, unless the metric was blacklisted, the routing key `c` used to look
up `handlers[i].CollectorEndpoints()` together with the metric as forwarded on
the matching endpoint channels. `statChanPresent` models whether the variadic
`collectorStatChans` parameter was supplied. -/
def readFromCollectorStep (col : CollectorCfg) (statChanPresent : Bool)
    (st : DispatchState) (arrival : Int) (m : Metric) :
    DispatchState × Option (String × Metric) :=
  let cm := resolveCanonical col (resolveCollectorDim col m)
  if stringInSlice cm.2.Name col.blacklist then (st, none)
  else
    (dispatchStateUpdate col statChanPresent st arrival cm.1,
      some (cm.1, applyPrefixStr col cm.2))

/-- The dispatcher loop folded over a timed input trace. -/
def runDispatch (col : CollectorCfg) (statChanPresent : Bool)
    (st : DispatchState) (trace : List (Int × Metric)) : DispatchState :=
  trace.foldl (fun st am => (readFromCollectorStep col statChanPresent st am.1 am.2).1) st

/-! ## Node-exporter textfile handler (handler/node_exporter_textfile.go) -/

/-- The `writeFloat` restricted to integral values: the hardcoded spellings for
`1`, `0` and `-1`, `strconv.AppendFloat(_, f, g, -1, 64)` otherwise (which
prints moderate integral values as plain decimal). -/
def writeFloatStr (f : Int) : String :=
  if f = 1 then "1"
  else if f = 0 then "0"
  else if f = -1 then "-1"
  else toString f

/-- The `writeDimensions` of the textfile handler: nothing at all is written for
an empty dimension set; otherwise the same separator-threaded block as the
Prometheus serializer (its `escaper` is the same replacer as `labelEscaper`),
so the fold step is shared. -/
def writeDimensionsStr (dims : Dims) : String :=
  if dims.length = 0 then ""
  else (dims.foldl dimsFoldStep ("", "\x7b")).1 ++ "\x7d"

/-- The `writeMetric`: name, dimension block, space, value, newline. -/
def writeMetricStr (m : Metric) : String :=
  m.Name ++ writeDimensionsStr m.Dimensions ++ " " ++ writeFloatStr m.Value ++ "\n"

/-- The `NodeExporterTextfile.Configure`: `os.Create(h.filename)` failing only
logs an error and leaves `h.fh` as the nil interface; on success `h.fh` is a
buffered writer (its accumulated contents model the buffer). -/
def nodeExporterConfigureFh (openSucceeds : Bool) : Option String :=
  if openSucceeds then some "" else none

/-- Result of one `NodeExporterTextfile.emitMetrics` flush. -/
inductive EmitOutcome where
  | skippedEmptyPayload
  | nilWriterPanic
  | flushed (contents : String)
deriving Repr, DecidableEq

/-- The `NodeExporterTextfile.emitMetrics`. An empty batch logs a warning and
returns false. When `h.fh` is nil the source logs
"Skipping send because unable to open output file" but does not return: it
falls through to `writeMetric(h.fh, m)`, whose `w.WriteString(...)` is a
method call on a nil interface — a nil-pointer dereference that panics the
process at runtime, modelled as `nilWriterPanic`. With a live writer every
metric line is written and the buffer flushed. -/
def nodeExporterEmitMetrics (fh : Option String) (metrics : List Metric) : EmitOutcome :=
  if metrics.length = 0 then .skippedEmptyPayload
  else
    match fh with
    | none => .nilWriterPanic
    | some buf => .flushed (metrics.foldl (fun b m => b ++ writeMetricStr m) buf)

/-! ## Kubernetes pod-info parser (util/kubernetes/pod_info) -/

/-- The slice of a `corev1.Pod` the pod-info package reads. -/
structure Pod where
  labels : Dims
  containersReady : List Bool

/-- The `Selector` interface: `Filter(*corev1.Pod) bool`. -/
def Selector := Pod → Bool

/-- The `LabelSelector.Filter` via `NewLabelSelector`. -/
def NewLabelSelector (l : Dims) : Selector := fun pod =>
  l.all (fun kv => dimLookup pod.labels kv.1 == some kv.2)

/-- The `AllContainersReadySelector.Filter` via `NewAllContainersReadySelector`. -/
def NewAllContainersReadySelector : Selector := fun pod =>
  pod.containersReady.all (fun r => r)

/-- The `PodInfoParser`. -/
structure PodInfoParser where
  kubeletTimeout : Int
  selectors : List Selector

/-- The `NewPodInfoParser(kubeletTimeout, selectors...)`: the struct literal in
the source initializes the field with the constant `5`, not with the
`kubeletTimeout` argument, which is never read; the selectors are copied. -/
def NewPodInfoParser (kubeletTimeout : Int) (selectors : List Selector) : PodInfoParser :=
  { kubeletTimeout := 5,
    selectors := selectors }

/-- The timeout (seconds) of the `http.Client` built by `AllPods`:
`time.Second * time.Duration(p.kubeletTimeout)`. -/
def allPodsClientTimeoutSecs (p : PodInfoParser) : Int := p.kubeletTimeout

/-! ## Derived notions and concrete instances used by the theorems -/

/-- One rendered `k="escaped v"` entry of a dimension block. -/
def dimEntry (kv : String × String) : String :=
  kv.1 ++ "=\"" ++ labelEscape kv.2 ++ "\""

/-- The rendered entries after the first separator: `sep` before the first
entry, `","` before every later one. -/
def dimTailStr (sep : String) : Dims → String
  | [] => ""
  | d :: rest => sep ++ dimEntry d ++ dimTailStr "," rest

/-- The counts emitted on the stats channel for one fixed source, in emission
order. -/
def countsFor (s : String) (log : List (String × Nat)) : List Nat :=
  log.filterMap (fun p => if p.1 = s then some p.2 else none)

/-- Whether one received metric is counted for source `s` by the dispatcher:
it survives the blacklist and its resolved routing key is `s`. -/
def dispatchCountsTo (col : CollectorCfg) (s : String) (m : Metric) : Bool :=
  let cm := resolveCanonical col (resolveCollectorDim col m)
  !stringInSlice cm.2.Name col.blacklist && cm.1 == s

/-- The true (unbounded) cumulative total of records counted for source `s`
over a trace — what the spec calls the cumulative total; the program stores it
reduced mod `2^64`. -/
def countedFor (col : CollectorCfg) (s : String) (trace : List (Int × Metric)) : Nat :=
  (trace.filter (fun am => dispatchCountsTo col s am.2)).length

/-- Invariant of the dispatcher state relative to the true cumulative total
`total` for source `s`: counter keys are unique, the stored count is the total
reduced mod `2^64`, every emitted count is bounded by the total, and — as long
as the total has not yet reached `2^64` — the emitted counts for `s` are
non-decreasing. -/
def StatInvW (s : String) (total : Nat) (st : DispatchState) : Prop :=
  (st.emissionCounter.map Prod.fst).Nodup ∧
  (tblLookup st.emissionCounter s).getD 0 = total % uint64Size ∧
  (∀ n ∈ countsFor s st.statLog, n ≤ total) ∧
  (total < uint64Size → List.Chain' (· ≤ ·) (countsFor s st.statLog))

/-- Concrete collector configuration for the C6 counterexample and witness:
canonical name `s`, interval 0, no blacklist, no prefix. -/
def c6Collector : CollectorCfg :=
  { name := "Test", canonicalName := "s", interval := 0, prefixStr := "",
    blacklist := [], collectorType := "poller" }

/-- Concrete metric for the C6 counterexample and witness. -/
def c6Metric : Metric := Metric.New "hello"

/-- The C6 counterexample trace: `2^64 - 2` records at arrival time 0 (the
last `2^64 - 3` after the counter entry exists), one at time 1 triggering an
emission of count `2^64 - 1`, one more at time 1 wrapping the counter to 0,
and one at time 2 triggering an emission of count 1. -/
def c6Trace : List (Int × Metric) :=
  (0, c6Metric) :: (List.replicate (uint64Size - 3) (0, c6Metric)
    ++ [(1, c6Metric), (1, c6Metric), (2, c6Metric)])

/-- A record list containing no begin- or end-of-cycle markers. -/
def markerFree (l : List Metric) : Prop :=
  ∀ m ∈ l, m.BeginCollection = false ∧ m.EndCollection = false

/-- Snapshot-cache invariant: no working list ever holds a begin/end marker,
and every published payload is the serialization of a marker-free record
list. -/
def PromNoMarkers (st : PromState) : Prop :=
  (∀ s l, tblLookup st.metricCollectorTable s = some l → markerFree l) ∧
  (∀ s out, tblLookup st.metricOutputTable s = some out →
    ∃ t l, markerFree l ∧ out = writeTable t l)

/-- Concrete input metric for the C5 witness: carries the override dimension
and no `collector` dimension. -/
def c5InMetric : Metric :=
  { Name := "hello", MetricType := "gauge", Value := 0,
    Dimensions := [("collectorCanonicalName", "Foobar")] }

/-- Concrete forwarded metric for the C5 witness. -/
def c5OutMetric : Metric :=
  { Name := "hello", MetricType := "gauge", Value := 0,
    Dimensions := [("collector", "Test")] }

/-- Concrete collector configuration for the C5 witness. -/
def c5Collector : CollectorCfg :=
  { name := "Test", canonicalName := "TestCanon", interval := 1, prefixStr := "",
    blacklist := [], collectorType := "poller" }

/-- The data record used in the C1 counterexample: it arrives for source `s1`
before that source's begin marker. -/
def c1StrayMetric : Metric :=
  { Name := "r", MetricType := "gauge", Value := 0, Dimensions := [("collector", "s1")] }

/-- The data record used in the C1 witness generation. -/
def c1DataMetric : Metric :=
  { Name := "m", MetricType := "gauge", Value := 0, Dimensions := [("collector", "s1")] }

/-- The overrun metric as it reaches the snapshot cache in the C7
counterexample (the dispatcher has stamped the `collector` dimension). -/
def c7OverrunMetric : Metric :=
  (reportCollectorMetric 1).AddDimension "collector" "s1"

/-- The ordinary data record used in the C7 witness. -/
def c7DataMetric : Metric :=
  { Name := "hello", MetricType := "gauge", Value := 0, Dimensions := [("collector", "s1")] }

/-! ## Character-level helper lemmas -/

/-- The `Char.ofNat` round-trips on valid codepoints. -/
theorem toNat_ofNat_valid {n : Nat} (h : n.isValidChar) : (Char.ofNat n).toNat = n := by
  rw [Char.ofNat, dif_pos h]
  rfl

/-- The `Char.toLower` adds 32 to an upper-case basic-latin codepoint. -/
theorem toLower_toNat_of_upper {c : Char} (h : 65 ≤ c.toNat ∧ c.toNat ≤ 90) :
    (Char.toLower c).toNat = c.toNat + 32 := by
  unfold Char.toLower
  rw [if_pos ⟨h.1, h.2⟩]
  exact toNat_ofNat_valid (Or.inl (by omega))

/-- The `Char.toLower` fixes anything that is not upper-case basic latin. -/
theorem toLower_eq_of_not_upper {c : Char} (h : ¬(65 ≤ c.toNat ∧ c.toNat ≤ 90)) :
    Char.toLower c = c := by
  unfold Char.toLower
  exact if_neg fun hc => h ⟨hc.1, hc.2⟩

/-- The `Char.toLower` is idempotent. -/
theorem toLower_idem (c : Char) : (Char.toLower c).toLower = Char.toLower c := by
  by_cases h : 65 ≤ c.toNat ∧ c.toNat ≤ 90
  · have ht := toLower_toNat_of_upper h
    exact toLower_eq_of_not_upper (by omega)
  · rw [toLower_eq_of_not_upper h, toLower_eq_of_not_upper h]

/-- Every character produced by `nameEscaperReplace` is left alone by a second
replacement pass. -/
theorem nameEscapeChar_idem (c d : Char) (hd : d ∈ nameEscapeChar c) :
    nameEscapeChar d = [d] := by
  unfold nameEscapeChar at hd
  split_ifs at hd with h1 h2 h3 h4 h5 h6
  · simp at hd
  · have : d = '_' := by simpa using hd
    subst this; decide
  · have : d = '_' := by simpa using hd
    subst this; decide
  · simp at hd
  · simp at hd
  · have : d = '_' := by simpa using hd
    subst this; decide
  · have : d = c := by simpa using hd
    subst this
    simp [nameEscapeChar, h1, h2, h3, h4, h5, h6]

/-- Characters at or above codepoint 97 are never rewritten by the name
escaper (all replaced characters lie below 48). -/
theorem nameEscapeChar_eq_self_of_ge97 {e : Char} (h : 97 ≤ e.toNat) :
    nameEscapeChar e = [e] := by
  have h1 : e ≠ '$' := fun he => absurd (he ▸ h) (by decide)
  have h2 : e ≠ '.' := fun he => absurd (he ▸ h) (by decide)
  have h3 : e ≠ '-' := fun he => absurd (he ▸ h) (by decide)
  have h4 : e ≠ '/' := fun he => absurd (he ▸ h) (by decide)
  have h5 : e ≠ Char.ofNat 39 := fun he => absurd (he ▸ h) (by decide)
  have h6 : e ≠ ' ' := fun he => absurd (he ▸ h) (by decide)
  simp [nameEscapeChar, h1, h2, h3, h4, h5, h6]

/-- Lower-casing preserves being a fixed point of the name escaper. -/
theorem nameEscapeChar_toLower {d : Char} (hd : nameEscapeChar d = [d]) :
    nameEscapeChar d.toLower = [d.toLower] := by
  by_cases h : 65 ≤ d.toNat ∧ d.toNat ≤ 90
  · have ht := toLower_toNat_of_upper h
    exact nameEscapeChar_eq_self_of_ge97 (by omega)
  · rw [toLower_eq_of_not_upper h]
    exact hd

/-- A list of escaper fixed points is globally a fixed point of `flatMap`. -/
theorem flatMap_nameEscapeChar_eq_self {xs : List Char}
    (h : ∀ d ∈ xs, nameEscapeChar d = [d]) : xs.flatMap nameEscapeChar = xs := by
  induction xs with
  | nil => rfl
  | cons a as ih =>
    simp only [List.flatMap_cons, h a (by simp)]
    simp [ih fun d hd => h d (by simp [hd])]

/-- Unfolding `sanitizeName` to a match on the escaped character list. -/
theorem sanitizeName_eq (x : String) :
    sanitizeName x =
      (match x.data.flatMap nameEscapeChar with
       | [] => ""
       | c :: cs => String.mk (Char.toLower c :: cs)) := rfl

/-! ## Claims -/

/-- The `sanitizeName` when the escaped character list is empty. -/
theorem sanitizeName_eq_nil {x : String} (hl : x.data.flatMap nameEscapeChar = []) :
    sanitizeName x = "" := by
  rw [sanitizeName_eq, hl]

/-- The `sanitizeName` when the escaped character list is non-empty. -/
theorem sanitizeName_eq_cons {x : String} {c : Char} {cs : List Char}
    (hl : x.data.flatMap nameEscapeChar = c :: cs) :
    sanitizeName x = String.mk (Char.toLower c :: cs) := by
  rw [sanitizeName_eq, hl]

/-- C9: name sanitization — replacing the fixed character set and then
lower-casing the first character — is idempotent: for every string `x`,
`sanitize(sanitize(x)) = sanitize(x)` where
`sanitize(x) = lowerFirst(nameEscaper.Replace(x))`. -/
theorem C9_sanitize_idempotent (x : String) :
    sanitizeName (sanitizeName x) = sanitizeName x := by
  have good : ∀ d ∈ x.data.flatMap nameEscapeChar, nameEscapeChar d = [d] := by
    intro d hd
    rcases List.mem_flatMap.1 hd with ⟨c, hc, hdc⟩
    exact nameEscapeChar_idem c d hdc
  cases hl : x.data.flatMap nameEscapeChar with
  | nil =>
    rw [sanitizeName_eq_nil hl, sanitizeName_eq_nil (x := "") rfl]
  | cons c cs =>
    have goodc : nameEscapeChar c = [c] := good c (by rw [hl]; simp)
    have goodcs : ∀ d ∈ cs, nameEscapeChar d = [d] := fun d hd => good d (by rw [hl]; simp [hd])
    have hflat : (String.mk (Char.toLower c :: cs)).data.flatMap nameEscapeChar
        = Char.toLower c :: cs := by
      show (Char.toLower c :: cs).flatMap nameEscapeChar = Char.toLower c :: cs
      rw [List.flatMap_cons, nameEscapeChar_toLower goodc, flatMap_nameEscapeChar_eq_self goodcs]
      rfl
    rw [sanitizeName_eq_cons hl, sanitizeName_eq_cons hflat, toLower_idem]

/-- C10: `NewPodInfoParser(t, s...)` returns a parser whose kubelet timeout
field equals the constant 5 regardless of `t`, so `AllPods` always issues its
HTTP request with a 5-second client timeout no matter what timeout the caller
configured. -/
theorem C10_pod_info_parser_timeout_constant (t : Int) (sel : List Selector) :
    (NewPodInfoParser t sel).kubeletTimeout = 5 ∧
      allPodsClientTimeoutSecs (NewPodInfoParser t sel) = 5 :=
  ⟨rfl, rfl⟩

/-- C4: a poller (non-listener) collector with interval 1 whose `Collect()`
blocks for 5 seconds produces exactly one overrun metric — named
`fullerite.collection_time_exceeded`, of Counter type, value 1, dimension
`interval="1"` — pushed before `Collect()` returns (the one-shot
`time.AfterFunc` timer fires at most once and never interrupts the in-flight
invocation); if `Collect()` returns before `interval + stagger` elapses, no
overrun metric is emitted. -/
theorem C4_watchdog_single_overrun :
    runCollectorCycleOverruns "poller" 1 5 = [reportCollectorMetric 1] ∧
    reportCollectorMetric 1 =
      { Name := "fullerite.collection_time_exceeded", MetricType := "counter",
        Value := 1, Dimensions := [("interval", "1")] } ∧
    ∀ collectorType d, collectorType ≠ "listener" → d < 1 + staggerValue →
      runCollectorCycleOverruns collectorType 1 d = [] := by
  refine ⟨by decide, by decide, ?_⟩
  intro collectorType d hct hd
  unfold runCollectorCycleOverruns
  rw [if_neg (by simpa using hct)]
  rw [if_neg (by simp only [staggerValue] at hd ⊢; omega)]

/-- Witness for C4: a `Collect()` of duration 1 on a poller with interval 1
(deadline 2) emits no overrun metric. -/
theorem C4_watchdog_single_overrun_witness :
    runCollectorCycleOverruns "poller" 1 1 = [] :=
  C4_watchdog_single_overrun.2.2 "poller" 1 (by decide) (by decide)

/-- C3: the claim (flushes after a failed file open log a warning and discard
the metrics, the handler survives) is the documented intent, but the code
falls through after the warning: with `h.fh` nil a non-empty flush calls
`writeMetric` on the nil writer interface and panics instead of discarding.
This theorem evaluates the embedded code at the failing input. -/
theorem C3_nil_writer_flush_panics :
    nodeExporterConfigureFh false = none ∧
      nodeExporterEmitMetrics (nodeExporterConfigureFh false) [Metric.New "hello"] =
        EmitOutcome.nilWriterPanic :=
  ⟨rfl, rfl⟩

/-- A string fold that appends `f m` for elements passing `p` equals the
concatenation of `f` over the filtered list. -/
theorem foldl_filter_append {α : Type} (p : α → Bool) (f : α → String) (ms : List α)
    (acc : String) :
    ms.foldl (fun out m => if p m then out ++ f m else out) acc
      = acc ++ ((ms.filter p).map f).foldl (· ++ ·) "" := by
  induction ms generalizing acc with
  | nil => simp
  | cons a as ih =>
    by_cases h : p a
    · simp only [List.foldl_cons, List.filter_cons, h, if_pos, List.map_cons]
      rw [ih]
      have : ∀ (s : String) (l : List String),
          l.foldl (· ++ ·) s = s ++ l.foldl (· ++ ·) "" := by
        intro s l
        induction l generalizing s with
        | nil => simp
        | cons b bs ihb =>
          simp only [List.foldl_cons]
          rw [ihb (s ++ b), ihb ("" ++ b), String.empty_append, String.append_assoc]
      rw [String.empty_append, this (f a) ((as.filter p).map f), ← String.append_assoc]
    · simp only [List.foldl_cons, List.filter_cons, h, if_neg, Bool.false_eq_true,
        not_false_iff, if_false]
      exact ih acc

/-- C2 counterexample: the record named `"123"` with dimension set
`[("a","b")]` has a sanitized name (`"123"`) that fails the pattern
`[a-zA-Z_:][a-zA-Z0-9_:]*`, yet `writeTable` emits a sample line for it —
the filter is applied to the full key, whose dimension block contains the
matching character `a` — so the published body is not empty as the claim
requires. -/
theorem C2_counterexample :
    nameMatcherMatchString
        (sanitizeName "123") = false ∧
      writeTable 0
          [{ Name := "123", MetricType := "gauge", Value := 1, Dimensions := [("a", "b")] }]
        = "123\x7ba=\"b\"\x7d 1.000000 0\n" ∧
      "123\x7ba=\"b\"\x7d 1.000000 0\n" ≠ "" := by
  refine ⟨by decide, by decide, by decide⟩

/-- C2 (amended): the body filter tests the record's full serialized key —
the sanitized name concatenated with the rendered dimension block — with Go's
unanchored `MatchString`, and exactly the records whose key contains a
character of `[a-zA-Z_:]` contribute a sample line; a `# TYPE` line appears
for exactly the raw type-table names that pass the same unanchored test (a
diagnostic is logged for the rest). -/
theorem C2_amended_validity_filter (now : Int) (ms : List Metric) (ts : List (String × Bool)) :
    writeTable now ms
        = (((ms.filter (fun m => nameMatcherMatchString (getMetricKey m))).map
            (sampleLine now)).foldl (· ++ ·) "") ∧
      typesBlock ts
        = (((ts.filter (fun kt => nameMatcherMatchString kt.1)).map
            (fun kt => typeLine kt.1 kt.2)).foldl (· ++ ·) "") := by
  constructor
  · rw [writeTable, foldl_filter_append, String.empty_append]
  · rw [typesBlock, foldl_filter_append, String.empty_append]

/-- The separator-threaded fold of both dimension serializers renders the
separator-prefixed entry list. -/
theorem dimsFold_eq (ds : Dims) (a s : String) :
    (ds.foldl dimsFoldStep (a, s)).1 = a ++ dimTailStr s ds := by
  induction ds generalizing a s with
  | nil => simp [dimTailStr]
  | cons d rest ih =>
    simp only [List.foldl_cons, dimsFoldStep, dimTailStr]
    rw [ih]
    simp [dimEntry, String.append_assoc]

/-- C8 counterexample: for the empty dimension set the textfile handler's
`writeDimensions` writes nothing at all, not the label block `\x7b\x7d` that
the claim requires of both serializers. -/
theorem C8_counterexample :
    writeDimensionsStr [] = "" ∧
      dimensionsToString [] = "\x7b\x7d" ∧
      ("" : String) ≠ "\x7b\x7d" := by
  refine ⟨rfl, rfl, by decide⟩

/-- C8 (amended): the exposition serializer alone renders the empty dimension
set as exactly `\x7b\x7d`; the textfile line writer renders it as the empty
string (no label block at all). For a non-empty set both produce the same
block `\x7bk="v",...\x7d` in which each value is escaped character-wise
(backslash, double quote and newline). -/
theorem C8_amended_dimension_rendering (d : String × String) (rest : Dims) :
    dimensionsToString [] = "\x7b\x7d" ∧
      writeDimensionsStr [] = "" ∧
      dimensionsToString (d :: rest)
        = "\x7b" ++ dimEntry d ++ dimTailStr "," rest ++ "\x7d" ∧
      writeDimensionsStr (d :: rest) = dimensionsToString (d :: rest) := by
  refine ⟨rfl, rfl, ?_, ?_⟩
  · show (if (d :: rest).length = 0 then "\x7b\x7d"
      else ((d :: rest).foldl dimsFoldStep ("", "\x7b")).1 ++ "\x7d") = _
    rw [if_neg (by simp), dimsFold_eq]
    simp [dimTailStr, String.append_assoc]
  · show (if (d :: rest).length = 0 then ""
      else ((d :: rest).foldl dimsFoldStep ("", "\x7b")).1 ++ "\x7d") = _
    rw [if_neg (by simp)]
    show _ = (if (d :: rest).length = 0 then "\x7b\x7d"
      else ((d :: rest).foldl dimsFoldStep ("", "\x7b")).1 ++ "\x7d")
    rw [if_neg (by simp)]

/-- Looking up the key just inserted. -/
theorem dimLookup_insert_self (dims : Dims) (k v : String) :
    dimLookup (dimInsert dims k v) k = some v := by
  induction dims with
  | nil => simp [dimInsert, dimLookup]
  | cons p rest ih =>
    by_cases h : p.1 = k
    · simp [dimInsert, h, dimLookup]
    · simp [dimInsert, h, dimLookup, ih]

/-- Insertion does not disturb other keys. -/
theorem dimLookup_insert_ne (dims : Dims) (k v k' : String) (h : k' ≠ k) :
    dimLookup (dimInsert dims k v) k' = dimLookup dims k' := by
  have h' : ¬ k = k' := fun hk => h hk.symm
  induction dims with
  | nil => simp [dimInsert, dimLookup, h']
  | cons p rest ih =>
    obtain ⟨pk, pv⟩ := p
    by_cases hp : pk = k
    · subst hp
      simp [dimInsert, dimLookup, h']
    · simp [dimInsert, hp, dimLookup, ih]

/-- Unfolding `dimErase` one entry at a time. -/
theorem dimErase_cons (p : String × String) (rest : Dims) (k : String) :
    dimErase (p :: rest) k = if p.1 = k then dimErase rest k else p :: dimErase rest k := by
  by_cases hp : p.1 = k
  · simp [dimErase, List.filter_cons, hp]
  · simp [dimErase, List.filter_cons, hp]

/-- The erased key is gone. -/
theorem dimLookup_erase_self (dims : Dims) (k : String) :
    dimLookup (dimErase dims k) k = none := by
  induction dims with
  | nil => rfl
  | cons p rest ih =>
    obtain ⟨pk, pv⟩ := p
    rw [dimErase_cons]
    by_cases hp : pk = k
    · rw [if_pos hp]
      exact ih
    · rw [if_neg hp]
      show (if pk = k then some pv else dimLookup (dimErase rest k) k) = none
      rw [if_neg hp]
      exact ih

/-- Erasure does not disturb other keys. -/
theorem dimLookup_erase_ne (dims : Dims) (k k' : String) (h : k' ≠ k) :
    dimLookup (dimErase dims k) k' = dimLookup dims k' := by
  induction dims with
  | nil => rfl
  | cons p rest ih =>
    obtain ⟨pk, pv⟩ := p
    rw [dimErase_cons]
    by_cases hp : pk = k
    · rw [if_pos hp, ih]
      show dimLookup rest k' = if pk = k' then some pv else dimLookup rest k'
      rw [if_neg (by rw [hp]; exact fun hk => h hk.symm)]
    · rw [if_neg hp]
      show (if pk = k' then some pv else dimLookup (dimErase rest k) k')
        = if pk = k' then some pv else dimLookup rest k'
      rw [ih]

/-- Stamping the `collector` dimension leaves the override dimension alone. -/
theorem resolveCollectorDim_canon (col : CollectorCfg) (m : Metric) :
    (resolveCollectorDim col m).GetDimensionValue "collectorCanonicalName"
      = m.GetDimensionValue "collectorCanonicalName" := by
  unfold resolveCollectorDim
  by_cases h : (m.GetDimensionValue "collector").isNone
  · rw [if_pos h]
    exact dimLookup_insert_ne _ _ _ _ (by decide)
  · rw [if_neg h]

/-- A metric without a `collector` dimension gets stamped with the physical
collector's name. -/
theorem resolveCollectorDim_none (col : CollectorCfg) (m : Metric)
    (h : m.GetDimensionValue "collector" = none) :
    (resolveCollectorDim col m).GetDimensionValue "collector" = some col.name := by
  unfold resolveCollectorDim
  rw [if_pos (by simp [h])]
  exact dimLookup_insert_self _ _ _

/-- Prefixing only renames; dimensions are untouched. -/
theorem applyPrefixStr_dims (col : CollectorCfg) (m : Metric) :
    (applyPrefixStr col m).Dimensions = m.Dimensions := by
  unfold applyPrefixStr
  by_cases h : col.prefixStr.length > 0
  · rw [if_pos h]
  · rw [if_neg h]

/-- C5: for every metric the dispatcher reads from a physical collector's
channel and does not blacklist: a metric carrying no `collector` dimension is
forwarded with one stamped with the physical collector's name; a
`collectorCanonicalName` dimension becomes the routing key used to look up
handler endpoints and is removed from the forwarded metric; otherwise the
routing key is the physical collector's canonical name. -/
theorem C5_dispatcher_source_resolution (col : CollectorCfg) (present : Bool)
    (st : DispatchState) (arrival : Int) (m : Metric) (key : String) (m' : Metric)
    (hout : (readFromCollectorStep col present st arrival m).2 = some (key, m')) :
    (m.GetDimensionValue "collector" = none →
      m'.GetDimensionValue "collector" = some col.name) ∧
    (∀ v, m.GetDimensionValue "collectorCanonicalName" = some v →
      key = v ∧ m'.GetDimensionValue "collectorCanonicalName" = none) ∧
    (m.GetDimensionValue "collectorCanonicalName" = none → key = col.canonicalName) := by
  unfold readFromCollectorStep at hout
  by_cases hbl : stringInSlice (resolveCanonical col (resolveCollectorDim col m)).2.Name
      col.blacklist
  · rw [if_pos hbl] at hout
    exact absurd hout (by simp)
  · rw [if_neg hbl] at hout
    simp only [Option.some.injEq, Prod.mk.injEq] at hout
    obtain ⟨hkey, hm'⟩ := hout
    refine ⟨?_, ?_, ?_⟩
    · intro hcol
      have hdims : m'.Dimensions
          = (resolveCanonical col (resolveCollectorDim col m)).2.Dimensions := by
        rw [← hm', applyPrefixStr_dims]
      show dimLookup m'.Dimensions "collector" = some col.name
      rw [hdims]
      unfold resolveCanonical
      cases hc : (resolveCollectorDim col m).GetDimensionValue "collectorCanonicalName" with
      | some v =>
        show dimLookup (dimErase (resolveCollectorDim col m).Dimensions
          "collectorCanonicalName") "collector" = some col.name
        rw [dimLookup_erase_ne _ _ _ (by decide)]
        exact resolveCollectorDim_none col m hcol
      | none =>
        exact resolveCollectorDim_none col m hcol
    · intro v hv
      have hc : (resolveCollectorDim col m).GetDimensionValue "collectorCanonicalName"
          = some v := by rw [resolveCollectorDim_canon, hv]
      constructor
      · rw [← hkey]
        unfold resolveCanonical
        rw [hc]
      · have hdims : m'.Dimensions
            = (resolveCanonical col (resolveCollectorDim col m)).2.Dimensions := by
          rw [← hm', applyPrefixStr_dims]
        show dimLookup m'.Dimensions "collectorCanonicalName" = none
        rw [hdims]
        unfold resolveCanonical
        rw [hc]
        exact dimLookup_erase_self _ _
    · intro hv
      have hc : (resolveCollectorDim col m).GetDimensionValue "collectorCanonicalName"
          = none := by rw [resolveCollectorDim_canon, hv]
      rw [← hkey]
      unfold resolveCanonical
      rw [hc]

/-- Witness instantiation of the C5 theorem at the concrete inputs above. -/
theorem C5_dispatcher_source_resolution_witness :
    (c5InMetric.GetDimensionValue "collector" = none →
      c5OutMetric.GetDimensionValue "collector" = some "Test") ∧
    (∀ v, c5InMetric.GetDimensionValue "collectorCanonicalName" = some v →
      "Foobar" = v ∧ c5OutMetric.GetDimensionValue "collectorCanonicalName" = none) ∧
    (c5InMetric.GetDimensionValue "collectorCanonicalName" = none →
      "Foobar" = "TestCanon") :=
  C5_dispatcher_source_resolution c5Collector
    false { emissionCounter := [], lastEmission := 0, statLog := [] } 0
    c5InMetric "Foobar" c5OutMetric (by decide)

/-- Unfolding `tblLookup` on a cons cell. -/
theorem tblLookup_cons {α : Type} (pk : String) (pv : α) (rest : List (String × α)) (k : String) :
    tblLookup ((pk, pv) :: rest) k = if pk = k then some pv else tblLookup rest k := rfl

/-- Unfolding `tblInsert` on a cons cell. -/
theorem tblInsert_cons {α : Type} (pk : String) (pv : α) (rest : List (String × α))
    (k : String) (v : α) :
    tblInsert ((pk, pv) :: rest) k v
      = if pk = k then (k, v) :: rest else (pk, pv) :: tblInsert rest k v := rfl

/-- Looking up the key just inserted in a table. -/
theorem tblLookup_insert_self {α : Type} (t : List (String × α)) (k : String) (v : α) :
    tblLookup (tblInsert t k v) k = some v := by
  induction t with
  | nil => simp [tblInsert, tblLookup]
  | cons p rest ih =>
    obtain ⟨pk, pv⟩ := p
    by_cases h : pk = k
    · simp [tblInsert_cons, h, tblLookup_cons]
    · simp [tblInsert_cons, h, tblLookup_cons, ih]

/-- Table insertion does not disturb other keys. -/
theorem tblLookup_insert_ne {α : Type} (t : List (String × α)) (k : String) (v : α)
    (k' : String) (h : k' ≠ k) :
    tblLookup (tblInsert t k v) k' = tblLookup t k' := by
  have h' : ¬ k = k' := fun hk => h hk.symm
  induction t with
  | nil => simp [tblInsert, tblLookup, h']
  | cons p rest ih =>
    obtain ⟨pk, pv⟩ := p
    by_cases hp : pk = k
    · subst hp
      simp [tblInsert_cons, tblLookup_cons, h']
    · simp [tblInsert_cons, hp, tblLookup_cons, ih]

/-- Keys of an updated table come from the inserted key or the old keys. -/
theorem tblInsert_fst_mem {α : Type} (t : List (String × α)) (k : String) (v : α)
    (a : String) (ha : a ∈ (tblInsert t k v).map Prod.fst) :
    a = k ∨ a ∈ t.map Prod.fst := by
  induction t with
  | nil => simpa [tblInsert] using ha
  | cons p rest ih =>
    obtain ⟨pk, pv⟩ := p
    by_cases hp : pk = k
    · rw [tblInsert_cons, if_pos hp] at ha
      simp only [List.map_cons, List.mem_cons] at ha ⊢
      rcases ha with ha | ha
      · exact Or.inl ha
      · exact Or.inr (Or.inr ha)
    · rw [tblInsert_cons, if_neg hp] at ha
      simp only [List.map_cons, List.mem_cons] at ha ⊢
      rcases ha with ha | ha
      · exact Or.inr (Or.inl ha)
      · rcases ih ha with h | h
        · exact Or.inl h
        · exact Or.inr (Or.inr h)

/-- Insertion preserves uniqueness of table keys. -/
theorem tblInsert_keys_nodup {α : Type} (t : List (String × α)) (k : String) (v : α)
    (h : (t.map Prod.fst).Nodup) : ((tblInsert t k v).map Prod.fst).Nodup := by
  induction t with
  | nil => simp [tblInsert]
  | cons p rest ih =>
    obtain ⟨pk, pv⟩ := p
    simp only [List.map_cons, List.nodup_cons] at h
    obtain ⟨hpk, hrest⟩ := h
    by_cases hp : pk = k
    · subst hp
      rw [tblInsert_cons, if_pos rfl]
      simp only [List.map_cons, List.nodup_cons]
      exact ⟨hpk, hrest⟩
    · rw [tblInsert_cons, if_neg hp]
      simp only [List.map_cons, List.nodup_cons]
      refine ⟨fun hmem => ?_, ih hrest⟩
      rcases tblInsert_fst_mem rest k v pk hmem with h | h
      · exact hp h
      · exact hpk h

/-- A source absent from a table contributes no counts. -/
theorem countsFor_nil_of_not_mem (s : String) (t : List (String × Nat))
    (h : ¬ s ∈ t.map Prod.fst) : countsFor s t = [] := by
  induction t with
  | nil => rfl
  | cons p rest ih =>
    obtain ⟨pk, pv⟩ := p
    simp only [List.map_cons, List.mem_cons] at h
    push_neg at h
    have hpk : ¬ pk = s := fun he => h.1 he.symm
    simp only [countsFor, List.filterMap_cons, hpk, if_false]
    exact ih h.2

/-- With unique keys, the counts a table contributes for `s` are exactly its
lookup result. -/
theorem countsFor_of_nodup (s : String) (t : List (String × Nat))
    (h : (t.map Prod.fst).Nodup) :
    countsFor s t = ((tblLookup t s).map (fun v => [v])).getD [] := by
  induction t with
  | nil => rfl
  | cons p rest ih =>
    obtain ⟨pk, pv⟩ := p
    simp only [List.map_cons, List.nodup_cons] at h
    obtain ⟨hpk, hrest⟩ := h
    by_cases hp : pk = s
    · subst hp
      simp only [countsFor, List.filterMap_cons, if_pos rfl, tblLookup_cons]
      rw [← countsFor]
      rw [countsFor_nil_of_not_mem pk rest hpk]
      simp
    · simp only [countsFor, List.filterMap_cons, hp, if_false, tblLookup_cons]
      rw [← countsFor, ih hrest]

/-- The `countsFor` distributes over log concatenation. -/
theorem countsFor_append (s : String) (l1 l2 : List (String × Nat)) :
    countsFor s (l1 ++ l2) = countsFor s l1 ++ countsFor s l2 := by
  simp [countsFor, List.filterMap_append]

/-- The dispatcher state update always performs exactly the wrapping counter
bump. -/
theorem dispatchStateUpdate_counter (col : CollectorCfg) (present : Bool)
    (st : DispatchState) (arrival : Int) (c : String) :
    (dispatchStateUpdate col present st arrival c).emissionCounter
      = tblInsert st.emissionCounter c
          (((tblLookup st.emissionCounter c).getD 0 + 1) % uint64Size) := by
  unfold dispatchStateUpdate
  by_cases h : present && decide (st.lastEmission + col.interval < arrival)
  · rw [if_pos h]
  · rw [if_neg h]

/-- The stats log is only ever appended to. -/
theorem dispatchStateUpdate_statLog (col : CollectorCfg) (present : Bool)
    (st : DispatchState) (arrival : Int) (c : String) :
    ∃ tail, (dispatchStateUpdate col present st arrival c).statLog = st.statLog ++ tail := by
  unfold dispatchStateUpdate
  by_cases h : present && decide (st.lastEmission + col.interval < arrival)
  · rw [if_pos h]
    exact ⟨_, rfl⟩
  · rw [if_neg h]
    exact ⟨[], by simp⟩

/-- The dispatcher state update preserves the wrapping-counter invariant; the
routed key `c` advances the true total of its own source by one. -/
theorem statInvW_update (col : CollectorCfg) (present : Bool) (st : DispatchState)
    (arrival : Int) (c s : String) (total : Nat) (h : StatInvW s total st) :
    StatInvW s (total + (if c = s then 1 else 0))
      (dispatchStateUpdate col present st arrival c) := by
  obtain ⟨hnodup, hcnt, hbound, hchain⟩ := h
  have hnodup' : ((tblInsert st.emissionCounter c
      (((tblLookup st.emissionCounter c).getD 0 + 1) % uint64Size)).map Prod.fst).Nodup :=
    tblInsert_keys_nodup _ _ _ hnodup
  have htotal_le : total ≤ total + (if c = s then 1 else 0) := by
    by_cases hcs : c = s <;> simp [hcs]
  have hcnt' : (tblLookup (tblInsert st.emissionCounter c
        (((tblLookup st.emissionCounter c).getD 0 + 1) % uint64Size)) s).getD 0
      = (total + (if c = s then 1 else 0)) % uint64Size := by
    by_cases hcs : c = s
    · subst hcs
      rw [tblLookup_insert_self, hcnt]
      simp [Nat.mod_add_mod]
    · rw [tblLookup_insert_ne _ _ _ _ (fun hk => hcs hk.symm), hcnt]
      simp [hcs]
  unfold dispatchStateUpdate
  by_cases hcond : present && decide (st.lastEmission + col.interval < arrival)
  · rw [if_pos hcond]
    refine ⟨hnodup', hcnt', ?_, ?_⟩
    · intro n hn
      simp only [emitCollectorStats] at hn
      rw [countsFor_append] at hn
      rcases List.mem_append.1 hn with hn | hn
      · exact le_trans (hbound n hn) htotal_le
      · rw [countsFor_of_nodup _ _ hnodup'] at hn
        cases hlk : tblLookup (tblInsert st.emissionCounter c
            (((tblLookup st.emissionCounter c).getD 0 + 1) % uint64Size)) s with
        | none => rw [hlk] at hn; simp at hn
        | some v =>
          rw [hlk] at hn
          simp at hn
          have hv : v = (total + (if c = s then 1 else 0)) % uint64Size := by
            rw [← hcnt', hlk]
            rfl
          rw [hn, hv]
          exact Nat.mod_le _ _
    · intro hlt
      simp only [emitCollectorStats]
      rw [countsFor_append, List.chain'_append]
      refine ⟨hchain (lt_of_le_of_lt htotal_le hlt), ?_, ?_⟩
      · rw [countsFor_of_nodup _ _ hnodup']
        cases hlk : tblLookup (tblInsert st.emissionCounter c
            (((tblLookup st.emissionCounter c).getD 0 + 1) % uint64Size)) s with
        | none => simp
        | some v => simp
      · intro x hx y hy
        have hxmem : x ∈ countsFor s st.statLog := List.mem_of_mem_getLast? hx
        have hxb := hbound x hxmem
        rw [countsFor_of_nodup _ _ hnodup'] at hy
        cases hlk : tblLookup (tblInsert st.emissionCounter c
            (((tblLookup st.emissionCounter c).getD 0 + 1) % uint64Size)) s with
        | none => rw [hlk] at hy; simp at hy
        | some v =>
          rw [hlk] at hy
          simp at hy
          have hv : v = (total + (if c = s then 1 else 0)) % uint64Size := by
            rw [← hcnt', hlk]
            rfl
          have hmod : (total + (if c = s then 1 else 0)) % uint64Size
              = total + (if c = s then 1 else 0) := Nat.mod_eq_of_lt hlt
          omega
  · rw [if_neg hcond]
    refine ⟨hnodup', hcnt', fun n hn => le_trans (hbound n hn) htotal_le,
      fun hlt => hchain (lt_of_le_of_lt htotal_le hlt)⟩

/-- One dispatcher step preserves the wrapping-counter invariant, advancing
the true total exactly when the metric is counted for `s`. -/
theorem statInvW_step (col : CollectorCfg) (present : Bool) (st : DispatchState)
    (arrival : Int) (m : Metric) (s : String) (total : Nat)
    (h : StatInvW s total st) :
    StatInvW s (total + (if dispatchCountsTo col s m then 1 else 0))
      ((readFromCollectorStep col present st arrival m).1) := by
  unfold readFromCollectorStep
  by_cases hbl : stringInSlice (resolveCanonical col (resolveCollectorDim col m)).2.Name
      col.blacklist
  · rw [if_pos hbl]
    have hc : dispatchCountsTo col s m = false := by
      simp [dispatchCountsTo, hbl]
    rw [hc]
    simpa using h
  · rw [if_neg hbl]
    have hc : dispatchCountsTo col s m
        = ((resolveCanonical col (resolveCollectorDim col m)).1 == s) := by
      simp [dispatchCountsTo, hbl]
    have hupd := statInvW_update col present st arrival
      (resolveCanonical col (resolveCollectorDim col m)).1 s total h
    by_cases hcs : (resolveCanonical col (resolveCollectorDim col m)).1 = s
    · rw [hc]
      simp only [hcs, if_pos, beq_self_eq_true, if_true]
      simpa [hcs] using hupd
    · rw [hc]
      have hbeq : ((resolveCanonical col (resolveCollectorDim col m)).1 == s) = false := by
        simp [hcs]
      rw [hbeq]
      simpa [hcs] using hupd

/-- Splitting `countedFor` at the head of a trace. -/
theorem countedFor_cons (col : CollectorCfg) (s : String) (a : Int × Metric)
    (rest : List (Int × Metric)) :
    countedFor col s (a :: rest)
      = (if dispatchCountsTo col s a.2 then 1 else 0) + countedFor col s rest := by
  by_cases h : dispatchCountsTo col s a.2
  · simp [countedFor, List.filter_cons, h, Nat.add_comm]
  · simp [countedFor, List.filter_cons, h]

/-- The whole dispatcher run preserves the wrapping-counter invariant,
advancing the true total by the number of counted records. -/
theorem statInvW_run (col : CollectorCfg) (present : Bool) (s : String) :
    ∀ (trace : List (Int × Metric)) (st : DispatchState) (total : Nat),
      StatInvW s total st →
      StatInvW s (total + countedFor col s trace) (runDispatch col present st trace) := by
  intro trace
  induction trace with
  | nil =>
    intro st total h
    simpa [countedFor, runDispatch] using h
  | cons a rest ih =>
    intro st total h
    have hstep := statInvW_step col present st a.1 a.2 s total h
    have hrest := ih _ _ hstep
    have harith : total + (if dispatchCountsTo col s a.2 then 1 else 0) + countedFor col s rest
        = total + countedFor col s (a :: rest) := by
      rw [countedFor_cons]
      omega
    show StatInvW s (total + countedFor col s (a :: rest))
      (runDispatch col present ((readFromCollectorStep col present st a.1 a.2).1) rest)
    rw [← harith]
    exact hrest

/-- C6 counterexample infrastructure: unfolding one dispatcher step. -/
theorem runDispatch_cons (col : CollectorCfg) (present : Bool) (st : DispatchState)
    (a1 : Int) (a2 : Metric) (l : List (Int × Metric)) :
    runDispatch col present st ((a1, a2) :: l)
      = runDispatch col present ((readFromCollectorStep col present st a1 a2).1) l := rfl

/-- C6 counterexample infrastructure: splitting a dispatcher run. -/
theorem runDispatch_append (col : CollectorCfg) (present : Bool) (st : DispatchState)
    (l1 l2 : List (Int × Metric)) :
    runDispatch col present st (l1 ++ l2)
      = runDispatch col present (runDispatch col present st l1) l2 := by
  simp [runDispatch, List.foldl_append]

/-- One step of the C6 collector from a single-entry counter: the counter
advances mod `2^64`, and the stats channel fires exactly when the arrival is
past the last emission. -/
theorem c6_step (w : Nat) (e a : Int) (log : List (String × Nat)) :
    (readFromCollectorStep c6Collector true ⟨[("s", w)], e, log⟩ a c6Metric).1
      = if e < a
        then ⟨[("s", (w + 1) % uint64Size)], a, log ++ [("s", (w + 1) % uint64Size)]⟩
        else ⟨[("s", (w + 1) % uint64Size)], e, log⟩ := by
  by_cases hea : e < a
  · rw [if_pos hea]
    simp [readFromCollectorStep, c6Collector, c6Metric, resolveCollectorDim, resolveCanonical,
      dispatchStateUpdate, stringInSlice, emitCollectorStats, tblLookup, tblInsert,
      Metric.GetDimensionValue, Metric.AddDimension, Metric.New, dimLookup, dimInsert, hea]
  · rw [if_neg hea]
    simp [readFromCollectorStep, c6Collector, c6Metric, resolveCollectorDim, resolveCanonical,
      dispatchStateUpdate, stringInSlice, emitCollectorStats, tblLookup, tblInsert,
      Metric.GetDimensionValue, Metric.AddDimension, Metric.New, dimLookup, dimInsert, hea]

/-- The first step of the C6 collector from the empty counter map. -/
theorem c6_step_empty (e a : Int) (log : List (String × Nat)) :
    (readFromCollectorStep c6Collector true ⟨[], e, log⟩ a c6Metric).1
      = if e < a
        then ⟨[("s", 1 % uint64Size)], a, log ++ [("s", 1 % uint64Size)]⟩
        else ⟨[("s", 1 % uint64Size)], e, log⟩ := by
  by_cases hea : e < a
  · rw [if_pos hea]
    simp [readFromCollectorStep, c6Collector, c6Metric, resolveCollectorDim, resolveCanonical,
      dispatchStateUpdate, stringInSlice, emitCollectorStats, tblLookup, tblInsert,
      Metric.GetDimensionValue, Metric.AddDimension, Metric.New, dimLookup, dimInsert, hea]
  · rw [if_neg hea]
    simp [readFromCollectorStep, c6Collector, c6Metric, resolveCollectorDim, resolveCanonical,
      dispatchStateUpdate, stringInSlice, emitCollectorStats, tblLookup, tblInsert,
      Metric.GetDimensionValue, Metric.AddDimension, Metric.New, dimLookup, dimInsert, hea]

/-- Running `n` records of the C6 trace at arrival time 0 with the clock at 0
emits nothing and advances the counter by `n` mod `2^64`. -/
theorem c6_run_replicate (n : Nat) :
    ∀ (w : Nat) (log : List (String × Nat)),
      runDispatch c6Collector true ⟨[("s", w % uint64Size)], 0, log⟩
          (List.replicate n (0, c6Metric))
        = ⟨[("s", (w + n) % uint64Size)], 0, log⟩ := by
  induction n with
  | zero => intro w log; simp [runDispatch]
  | succ k ih =>
    intro w log
    rw [List.replicate_succ, runDispatch_cons]
    have hstep := c6_step (w % uint64Size) 0 0 log
    rw [if_neg (lt_irrefl 0)] at hstep
    rw [hstep, Nat.mod_add_mod, ih (w + 1) log]
    have harith : w + 1 + k = w + (k + 1) := by omega
    rw [harith]

/-- C6 counterexample: with the counter's true `uint64` wrap-around embedded,
the claim's unconditional monotonicity fails: a trace of `2^64 + 1` records
for one source produces the emitted count sequence `[2^64 - 1, 1]`, which
decreases — the cumulative count wraps past `2^64 - 1` and the second emission
reports a smaller value than the first. -/
theorem C6_counterexample :
    ¬ List.Chain' (· ≤ ·)
      (countsFor "s" (runDispatch c6Collector true ⟨[], 0, []⟩ c6Trace).statLog) := by
  have hUval : uint64Size = 18446744073709551616 := rfl
  have h3 : 3 ≤ uint64Size := by rw [hUval]; norm_num
  have h1 : (readFromCollectorStep c6Collector true ⟨[], 0, []⟩ 0 c6Metric).1
      = ⟨[("s", 1 % uint64Size)], 0, []⟩ := by
    rw [c6_step_empty, if_neg (lt_irrefl 0)]
  have hfinal : (runDispatch c6Collector true ⟨[], 0, []⟩ c6Trace).statLog
      = [("s", uint64Size - 1), ("s", 1)] := by
    show (runDispatch c6Collector true ⟨[], 0, []⟩
        ((0, c6Metric) :: (List.replicate (uint64Size - 3) (0, c6Metric)
          ++ [(1, c6Metric), (1, c6Metric), (2, c6Metric)]))).statLog = _
    rw [runDispatch_cons, h1, runDispatch_append, c6_run_replicate (uint64Size - 3) 1 []]
    have e1 : (1 + (uint64Size - 3)) % uint64Size = uint64Size - 2 := by
      have he : 1 + (uint64Size - 3) = uint64Size - 2 := by omega
      rw [he]
      exact Nat.mod_eq_of_lt (by omega)
    rw [e1, runDispatch_cons, c6_step (uint64Size - 2) 0 1 [],
      if_pos (by norm_num : (0 : Int) < 1)]
    have e2 : (uint64Size - 2 + 1) % uint64Size = uint64Size - 1 := by
      have he : uint64Size - 2 + 1 = uint64Size - 1 := by omega
      rw [he]
      exact Nat.mod_eq_of_lt (by omega)
    rw [e2, runDispatch_cons, c6_step (uint64Size - 1) 1 1 _, if_neg (lt_irrefl 1)]
    have e3 : (uint64Size - 1 + 1) % uint64Size = 0 := by
      have he : uint64Size - 1 + 1 = uint64Size := by omega
      rw [he, Nat.mod_self]
    rw [e3, runDispatch_cons, c6_step 0 1 2 _, if_pos (by norm_num : (1 : Int) < 2)]
    have e4 : (0 + 1) % uint64Size = 1 := by
      rw [Nat.zero_add]
      exact Nat.mod_eq_of_lt (by omega)
    rw [e4]
    rfl
  rw [hfinal]
  intro h
  simp [countsFor, List.chain'_cons] at h
  omega

/-- C6 (amended): the dispatcher's emission counters are never reset by the
dispatcher itself, but they are Go `uint64` values: each emitted
`(source, count)` pair carries the cumulative total of records counted for
that source since the dispatcher started, reduced mod `2^64`. The emitted
sequence for a fixed source is therefore monotonically non-decreasing as long
as fewer than `2^64` records have been counted for it (it wraps past that),
and after an emission only the elapsed-time tracker is reset, never the
counters — the stats log is append-only. -/
theorem C6_amended_wrapping_counters (col : CollectorCfg) (present : Bool)
    (trace : List (Int × Metric)) (t0 : Int) (s : String) :
    (tblLookup (runDispatch col present ⟨[], t0, []⟩ trace).emissionCounter s).getD 0
      = countedFor col s trace % uint64Size ∧
    (countedFor col s trace < uint64Size →
      List.Chain' (· ≤ ·)
        (countsFor s (runDispatch col present ⟨[], t0, []⟩ trace).statLog)) ∧
    (∀ st arrival m, ∃ tail,
      ((readFromCollectorStep col present st arrival m).1).statLog
        = st.statLog ++ tail) := by
  have hinit : StatInvW s 0 ⟨[], t0, []⟩ := by
    refine ⟨by simp, by simp [tblLookup], ?_, ?_⟩
    · intro n hn
      simp [countsFor] at hn
    · intro _
      simp [countsFor]
  have h := statInvW_run col present s trace ⟨[], t0, []⟩ 0 hinit
  rw [zero_add] at h
  refine ⟨h.2.1, h.2.2.2, ?_⟩
  intro st arrival m
  unfold readFromCollectorStep
  by_cases hbl : stringInSlice (resolveCanonical col (resolveCollectorDim col m)).2.Name
      col.blacklist
  · rw [if_pos hbl]
    exact ⟨[], by simp⟩
  · rw [if_neg hbl]
    exact dispatchStateUpdate_statLog col present st arrival _

/-- Witness for the amended C6 theorem: a one-record trace whose total (1) is
below `2^64`, with an actual emission, instantiating both the mod-`2^64`
counter equation and the monotone emitted sequence. -/
theorem C6_amended_wrapping_counters_witness :
    (tblLookup (runDispatch c6Collector true ⟨[], 0, []⟩
        [(1, c6Metric)]).emissionCounter "s").getD 0
      = countedFor c6Collector "s" [(1, c6Metric)] % uint64Size ∧
    List.Chain' (· ≤ ·)
      (countsFor "s" (runDispatch c6Collector true ⟨[], 0, []⟩
        [(1, c6Metric)]).statLog) :=
  ⟨(C6_amended_wrapping_counters c6Collector true [(1, c6Metric)] 0 "s").1,
    (C6_amended_wrapping_counters c6Collector true [(1, c6Metric)] 0 "s").2.1
      (by decide)⟩

/-- Effect of a begin marker on the snapshot cache: the working entry for its
source exists afterwards (old content untouched, empty when absent before)
and the published table is untouched. -/
theorem addPrometheusMetric_begin (now : Int) (st : PromState) (s : String) :
    tblLookup (addPrometheusMetric now st (BeginCollectionMetric s)).metricCollectorTable s
        = some ((tblLookup st.metricCollectorTable s).getD []) ∧
      (addPrometheusMetric now st (BeginCollectionMetric s)).metricOutputTable
        = st.metricOutputTable := by
  have hb : (BeginCollectionMetric s).BeginCollection = true := rfl
  have hdim : ((BeginCollectionMetric s).GetDimensionValue "collector").getD "" = s := rfl
  simp only [addPrometheusMetric, hb, if_true, hdim]
  cases hlk : tblLookup st.metricCollectorTable s with
  | some l => exact ⟨by simp [hlk], rfl⟩
  | none => exact ⟨by simp [tblLookup_insert_self], rfl⟩

/-- Effect of an ordinary data record on the snapshot cache: it is appended to
its collector's working list; the published table is untouched. -/
theorem addPrometheusMetric_data (now : Int) (st : PromState) (m : Metric) (s : String)
    (hdim : m.GetDimensionValue "collector" = some s)
    (hb : m.BeginCollection = false) (he : m.EndCollection = false) :
    tblLookup (addPrometheusMetric now st m).metricCollectorTable s
        = some ((tblLookup st.metricCollectorTable s).getD [] ++ [m]) ∧
      (addPrometheusMetric now st m).metricOutputTable = st.metricOutputTable := by
  simp only [addPrometheusMetric, hb, he, hdim, Bool.false_eq_true, if_false,
    Option.getD_some]
  exact ⟨tblLookup_insert_self _ _ _, trivial⟩

/-- Effect of an end marker on the snapshot cache: the published entry for its
source is replaced by the serialization of the taken working list, and the
working entry is reset to empty. -/
theorem addPrometheusMetric_end (now : Int) (st : PromState) (s : String) :
    tblLookup (addPrometheusMetric now st (EndCollectionMetric s)).metricOutputTable s
        = some (writeTable now ((tblLookup st.metricCollectorTable s).getD [])) ∧
      tblLookup (addPrometheusMetric now st (EndCollectionMetric s)).metricCollectorTable s
        = some [] := by
  have hb : (EndCollectionMetric s).BeginCollection = false := rfl
  have he : (EndCollectionMetric s).EndCollection = true := rfl
  have hdim : ((EndCollectionMetric s).GetDimensionValue "collector").getD "" = s := rfl
  simp only [addPrometheusMetric, hb, he, hdim, Bool.false_eq_true, if_false, if_true]
  exact ⟨tblLookup_insert_self _ _ _, tblLookup_insert_self _ _ _⟩

/-- One cache step preserves the no-markers invariant. -/
theorem promNoMarkers_step (now : Int) (st : PromState) (m : Metric)
    (h : PromNoMarkers st) : PromNoMarkers (addPrometheusMetric now st m) := by
  obtain ⟨hw, hp⟩ := h
  by_cases hb : m.BeginCollection = true
  · simp only [addPrometheusMetric, hb, if_true]
    cases hlk : tblLookup st.metricCollectorTable ((m.GetDimensionValue "collector").getD "") with
    | some l => exact ⟨hw, hp⟩
    | none =>
      refine ⟨?_, hp⟩
      intro s l hl
      by_cases hs : s = (m.GetDimensionValue "collector").getD ""
      · subst hs
        rw [tblLookup_insert_self] at hl
        cases hl
        intro x hx
        simp at hx
      · rw [tblLookup_insert_ne _ _ _ _ hs] at hl
        exact hw s l hl
  · by_cases he : m.EndCollection = true
    · simp only [addPrometheusMetric, hb, he, Bool.false_eq_true, if_false, if_true]
      constructor
      · intro s l hl
        by_cases hs : s = (m.GetDimensionValue "collector").getD ""
        · subst hs
          rw [tblLookup_insert_self] at hl
          cases hl
          intro x hx
          simp at hx
        · rw [tblLookup_insert_ne _ _ _ _ hs] at hl
          exact hw s l hl
      · intro s out hout
        by_cases hs : s = (m.GetDimensionValue "collector").getD ""
        · subst hs
          rw [tblLookup_insert_self] at hout
          cases hout
          refine ⟨now, (tblLookup st.metricCollectorTable
            ((m.GetDimensionValue "collector").getD "")).getD [], ?_, rfl⟩
          cases hlk : tblLookup st.metricCollectorTable
              ((m.GetDimensionValue "collector").getD "") with
          | some l => exact hw _ l hlk
          | none =>
            intro x hx
            simp at hx
        · rw [tblLookup_insert_ne _ _ _ _ hs] at hout
          exact hp s out hout
    · simp only [addPrometheusMetric, hb, he, Bool.false_eq_true, if_false]
      refine ⟨?_, hp⟩
      intro s l hl
      by_cases hs : s = (m.GetDimensionValue "collector").getD ""
      · subst hs
        rw [tblLookup_insert_self] at hl
        cases hl
        intro x hx
        rcases List.mem_append.1 hx with hx | hx
        · cases hlk : tblLookup st.metricCollectorTable
              ((m.GetDimensionValue "collector").getD "") with
          | some l' =>
            rw [hlk] at hx
            exact hw _ l' hlk x hx
          | none =>
            rw [hlk] at hx
            simp at hx
        · have hxm : x = m := by simpa using hx
          subst hxm
          exact ⟨by simpa using hb, by simpa using he⟩
      · rw [tblLookup_insert_ne _ _ _ _ hs] at hl
        exact hw s l hl

/-- The no-markers invariant holds along any processed trace. -/
theorem promNoMarkers_run (now : Int) (trace : List Metric) :
    PromNoMarkers (addPrometheusMetrics now initPromState trace) := by
  have hinit : PromNoMarkers initPromState := by
    constructor
    · intro s l hl
      cases hl
    · intro s out hout
      cases hout
  have hstep : ∀ st, PromNoMarkers st →
      PromNoMarkers (addPrometheusMetrics now st trace) := by
    induction trace with
    | nil => exact fun st h => h
    | cons m rest ih =>
      intro st h
      exact ih _ (promNoMarkers_step now st m h)
  exact hstep _ hinit

/-- Processing a run of data records for source `s` appends them, in order, to
the working list for `s` and leaves the published table untouched. -/
theorem addPrometheusMetrics_data_run (now : Int) (ms : List Metric) (s : String)
    (hms : ∀ m ∈ ms, m.GetDimensionValue "collector" = some s ∧
      m.BeginCollection = false ∧ m.EndCollection = false) :
    ∀ st l, tblLookup st.metricCollectorTable s = some l →
      tblLookup (addPrometheusMetrics now st ms).metricCollectorTable s = some (l ++ ms) ∧
      (addPrometheusMetrics now st ms).metricOutputTable = st.metricOutputTable := by
  induction ms with
  | nil =>
    intro st l hl
    exact ⟨by simpa using hl, rfl⟩
  | cons m rest ih =>
    intro st l hl
    obtain ⟨hdim, hb, he⟩ := hms m (by simp)
    have hstep := addPrometheusMetric_data now st m s hdim hb he
    have hl' : tblLookup (addPrometheusMetric now st m).metricCollectorTable s
        = some (l ++ [m]) := by
      rw [hstep.1, hl]
      rfl
    have hrest := ih (fun x hx => hms x (by simp [hx])) (addPrometheusMetric now st m)
      (l ++ [m]) hl'
    constructor
    · show tblLookup (addPrometheusMetrics now (addPrometheusMetric now st m)
        rest).metricCollectorTable s = some (l ++ m :: rest)
      rw [hrest.1]
      simp
    · show (addPrometheusMetrics now (addPrometheusMetric now st m)
        rest).metricOutputTable = st.metricOutputTable
      rw [hrest.2, hstep.2]

/-- C1 counterexample: a record for `s1` that arrives before the begin marker
survives the begin marker (which never clears an existing working list) and is
published by the following end marker, so the payload is not the
serialization of the records appended since the previous (begin) marker —
that serialization is empty — but contains the stray record's sample line. -/
theorem C1_counterexample :
    tblLookup (addPrometheusMetrics 0 initPromState
        [c1StrayMetric, BeginCollectionMetric "s1", EndCollectionMetric "s1"]).metricOutputTable
        "s1"
      = some "r\x7bcollector=\"s1\"\x7d 0.000000 0\n" ∧
    writeTable 0 [] = "" ∧
    ("r\x7bcollector=\"s1\"\x7d 0.000000 0\n" : String) ≠ "" := by
  refine ⟨by decide, rfl, by decide⟩

/-- C1 (amended): when the working list for source `s` is empty (or absent) at
the begin marker — i.e. no record for `s` arrived since the previous end
marker — processing a generation `begin s, ms…, end s` replaces (not merges)
the published entry for `s` with the serialization of exactly `ms` and
simultaneously resets the working list for `s` to empty; with zero records the
published payload is the empty string, replacing any prior content. A begin
marker itself never clears records already accumulated, so the reset boundary
is the end marker, not the begin marker. -/
theorem C1_amended_generation_replacement (now : Int) (st : PromState) (s : String)
    (ms : List Metric)
    (hclean : tblLookup st.metricCollectorTable s = none ∨
      tblLookup st.metricCollectorTable s = some [])
    (hms : ∀ m ∈ ms, m.GetDimensionValue "collector" = some s ∧
      m.BeginCollection = false ∧ m.EndCollection = false) :
    tblLookup (addPrometheusMetrics now st
        (BeginCollectionMetric s :: ms ++ [EndCollectionMetric s])).metricOutputTable s
      = some (writeTable now ms) ∧
    tblLookup (addPrometheusMetrics now st
        (BeginCollectionMetric s :: ms ++ [EndCollectionMetric s])).metricCollectorTable s
      = some [] ∧
    writeTable now [] = "" := by
  have hbegin := addPrometheusMetric_begin now st s
  have hl1 : tblLookup (addPrometheusMetric now st
      (BeginCollectionMetric s)).metricCollectorTable s = some [] := by
    rw [hbegin.1]
    rcases hclean with h | h <;> rw [h] <;> rfl
  have hrun := addPrometheusMetrics_data_run now ms s hms
    (addPrometheusMetric now st (BeginCollectionMetric s)) [] hl1
  have hend := addPrometheusMetric_end now
    (addPrometheusMetrics now (addPrometheusMetric now st (BeginCollectionMetric s)) ms) s
  have hsplit : addPrometheusMetrics now st
      (BeginCollectionMetric s :: ms ++ [EndCollectionMetric s])
      = addPrometheusMetric now
          (addPrometheusMetrics now
            (addPrometheusMetric now st (BeginCollectionMetric s)) ms)
          (EndCollectionMetric s) := by
    simp [addPrometheusMetrics, List.foldl_append]
  rw [hsplit]
  refine ⟨?_, hend.2, rfl⟩
  rw [hend.1, hrun.1]
  simp

/-- Witness for the amended C1 theorem: a clean generation with one record,
from the initial cache state. -/
theorem C1_amended_generation_replacement_witness :
    tblLookup (addPrometheusMetrics 0 initPromState
        (BeginCollectionMetric "s1" :: [c1DataMetric] ++ [EndCollectionMetric "s1"])).metricOutputTable
        "s1"
      = some (writeTable 0 [c1DataMetric]) ∧
    tblLookup (addPrometheusMetrics 0 initPromState
        (BeginCollectionMetric "s1" :: [c1DataMetric] ++ [EndCollectionMetric "s1"])).metricCollectorTable
        "s1"
      = some [] ∧
    writeTable 0 [] = "" :=
  C1_amended_generation_replacement 0 initPromState "s1" [c1DataMetric]
    (Or.inl rfl) (by decide)

/-- C7 counterexample: the reserved overrun counter
`fullerite.collection_time_exceeded` reaching the snapshot cache is not
filtered — `addPrometheusMetric` only intercepts the begin and end markers —
and the end of the generation publishes an ordinary sample line for it. -/
theorem C7_counterexample :
    c7OverrunMetric.Name = "fullerite.collection_time_exceeded" ∧
    tblLookup (addPrometheusMetrics 0 initPromState
        [BeginCollectionMetric "s1", c7OverrunMetric, EndCollectionMetric "s1"]).metricOutputTable
        "s1"
      = some (sampleLine 0 c7OverrunMetric) ∧
    sampleLine 0 c7OverrunMetric ≠ "" := by
  refine ⟨rfl, by decide, by decide⟩

/-- C7 (amended): of the four reserved control names, the snapshot cache
intercepts exactly the begin-of-cycle and end-of-cycle markers: no metric
named `fullerite.begin_collection` or `fullerite.end_collection` ever enters a
working list, and every published payload serializes a marker-free record
list. The force-flush sentinel and the overrun counter are not filtered by the
cache and are serialized as ordinary samples when they reach it. -/
theorem C7_amended_markers_never_serialized (now : Int) (trace : List Metric) :
    (∀ s l, tblLookup (addPrometheusMetrics now initPromState trace).metricCollectorTable s
        = some l → markerFree l) ∧
    (∀ s out, tblLookup (addPrometheusMetrics now initPromState trace).metricOutputTable s
        = some out → ∃ t l, markerFree l ∧ out = writeTable t l) :=
  promNoMarkers_run now trace

/-- Witness instantiation of the amended C7 theorem: the working list produced
by a concrete trace is marker-free at its concrete member. -/
theorem C7_amended_markers_never_serialized_witness :
    c7DataMetric.BeginCollection = false ∧ c7DataMetric.EndCollection = false :=
  (C7_amended_markers_never_serialized 0
      [BeginCollectionMetric "s1", c7DataMetric]).1 "s1" [c7DataMetric]
    (by decide) c7DataMetric (by simp)

